import Mathlib

/-!
Verification development for the recovair-abm airline disruption simulator.

Times and durations are modelled as whole minutes (`Int`): the scenario
loader builds every timestamp from a `%Y-%m-%d %H:%M:%S` string and every
configured duration from whole minutes, and the simulator only ever adds
such quantities.  `chrono::TimeDelta::num_hours` truncates toward zero.
Rust `u32`/`u16` counters are `Nat`; operations that can panic return
`Option` (`none` models the panic).
-/

/-- The total order `i64::cmp` / `chrono::DateTime::cmp` used by the Rust code
when it calls `.cmp` on two timestamps. -/
def cmpInt (a b : Int) : Ordering :=
  if a < b then .lt else if a = b then .eq else .gt

/-- `Clearance` (src/airport.rs lines 185-192): outcome of requesting clearance
to depart or arrive, with times in minutes. -/
inductive Clearance where
  | Cleared : Clearance
  | EDCT : Int → Clearance
  | Deferred : Int → Clearance
deriving DecidableEq, Repr

/-- `Clearance::time` (src/airport.rs lines 195-201). -/
def Clearance.time : Clearance → Option Int
  | .Cleared => none
  | .EDCT dt => some dt
  | .Deferred dt => some dt

/-- `Clearance::cleared_at` (src/airport.rs lines 204-206):
`self.time().map_or(true, |t| t <= time)`. -/
def Clearance.clearedAt (c : Clearance) (t : Int) : Bool :=
  match c.time with
  | none => true
  | some u => decide (u ≤ t)

/-- `Ord for Clearance` (src/airport.rs lines 209-232).  The Rust code first
tests `self == other` (derived `PartialEq`: same constructor and equal time),
answers `Less`/`Greater` when either side is `Cleared`, then compares the two
unwrapped times when they differ, and otherwise breaks the tie `EDCT < Deferred`.
The four timed arms below spell out that logic per constructor pair. -/
def Clearance.cmp (a b : Clearance) : Ordering :=
  if a = b then .eq
  else
    match a, b with
    | .Cleared, _ => .lt
    | _, .Cleared => .gt
    | .EDCT ta, .EDCT tb => if ta ≠ tb then cmpInt ta tb else .lt
    | .EDCT ta, .Deferred tb => if ta ≠ tb then cmpInt ta tb else .lt
    | .Deferred ta, .EDCT tb => if ta ≠ tb then cmpInt ta tb else .gt
    | .Deferred ta, .Deferred tb => if ta ≠ tb then cmpInt ta tb else .gt

/-- The strict order that `Clearance.cmp` decides, written out by cases; used
to factor the order-theoretic proofs. -/
def Clearance.below : Clearance → Clearance → Prop
  | .Cleared, .Cleared => False
  | .Cleared, .EDCT _ => True
  | .Cleared, .Deferred _ => True
  | .EDCT _, .Cleared => False
  | .Deferred _, .Cleared => False
  | .EDCT ta, .EDCT tb => ta < tb
  | .EDCT ta, .Deferred tb => ta ≤ tb
  | .Deferred ta, .EDCT tb => ta < tb
  | .Deferred ta, .Deferred tb => ta < tb

theorem Clearance.cmp_eq_iff (a b : Clearance) : a.cmp b = .eq ↔ a = b := by
  cases a <;> cases b <;>
    simp only [Clearance.cmp, cmpInt] <;> split_ifs <;> simp_all

theorem Clearance.cmp_lt_iff (a b : Clearance) : a.cmp b = .lt ↔ a.below b := by
  cases a <;> cases b <;>
    simp only [Clearance.cmp, cmpInt, Clearance.below] <;>
    split_ifs <;> simp_all <;> omega

theorem Clearance.cmp_gt_iff (a b : Clearance) : a.cmp b = .gt ↔ b.below a := by
  cases a <;> cases b <;>
    simp only [Clearance.cmp, cmpInt, Clearance.below] <;>
    split_ifs <;> simp_all <;> omega

theorem Clearance.below_trans (a b c : Clearance) :
    a.below b → b.below c → a.below c := by
  intro h1 h2
  cases a <;> cases b <;> cases c <;>
    simp only [Clearance.below] at h1 h2 ⊢ <;> omega

/-- C7: the ordering on `Clearance` is a total order: `cmp` returns `eq`
exactly on equal values, `lt` exactly when the flipped comparison is `gt`,
and is transitive; `Cleared` compares strictly less than every timed
clearance; two timed clearances with different times compare by time; and
at equal times `EDCT t` is strictly less than `Deferred t`, so
`Cleared < EDCT t < Deferred t`. -/
theorem clearance_cmp_total_order :
    (∀ a b : Clearance, a.cmp b = .eq ↔ a = b) ∧
    (∀ a b : Clearance, a.cmp b = .lt ↔ b.cmp a = .gt) ∧
    (∀ a b c : Clearance, a.cmp b = .lt → b.cmp c = .lt → a.cmp c = .lt) ∧
    (∀ c : Clearance, c ≠ .Cleared → Clearance.Cleared.cmp c = .lt) ∧
    (∀ ta tb : Int, ta ≠ tb →
      (Clearance.EDCT ta).cmp (.EDCT tb) = cmpInt ta tb ∧
      (Clearance.EDCT ta).cmp (.Deferred tb) = cmpInt ta tb ∧
      (Clearance.Deferred ta).cmp (.EDCT tb) = cmpInt ta tb ∧
      (Clearance.Deferred ta).cmp (.Deferred tb) = cmpInt ta tb) ∧
    (∀ t : Int, Clearance.Cleared.cmp (.EDCT t) = .lt ∧
      (Clearance.EDCT t).cmp (.Deferred t) = .lt) := by
  refine ⟨Clearance.cmp_eq_iff, ?_, ?_, ?_, ?_, ?_⟩
  · intro a b
    rw [Clearance.cmp_lt_iff, Clearance.cmp_gt_iff]
  · intro a b c hab hbc
    rw [Clearance.cmp_lt_iff] at *
    exact Clearance.below_trans a b c hab hbc
  · intro c hc
    rw [Clearance.cmp_lt_iff]
    cases c <;> simp [Clearance.below] at hc ⊢
  · intro ta tb hne
    refine ⟨?_, ?_, ?_, ?_⟩ <;>
      simp only [Clearance.cmp] <;> split_ifs <;> simp_all
  · intro t
    rw [Clearance.cmp_lt_iff, Clearance.cmp_lt_iff]
    simp [Clearance.below]

/-- Witness for C7 at concrete clearances, discharging the hypotheses of the
conditional conjuncts. -/
theorem clearance_cmp_total_order_witness :
    (Clearance.EDCT 3).cmp (.Deferred 5) = .lt ∧
    Clearance.Cleared.cmp (.EDCT 7) = .lt := by
  constructor
  · have h := (clearance_cmp_total_order.2.2.2.2.1 3 5 (by decide)).2.1
    rw [h]; decide
  · exact clearance_cmp_total_order.2.2.2.1 (.EDCT 7) (by decide)

/-! ## SlotManager (src/airport.rs lines 262-346) -/

/-- `chrono::TimeDelta::num_hours` on a whole-minute duration: the total
number of whole hours, truncated toward zero (Rust `i64` division). -/
def numHours (d : Int) : Int := d.tdiv 60

/-- Rust `as usize` applied to the `i64` produced by `num_hours`: wraps
modulo `2 ^ 64` (the literal below). -/
def toUsize (h : Int) : Nat := (h % 18446744073709551616).toNat

theorem numHours_of_nonneg (d : Int) (h : 0 ≤ d) : numHours d = d / 60 := by
  unfold numHours
  rw [Int.tdiv_eq_ediv h (by omega)]

theorem numHours_neg_small (d : Int) (h1 : -60 < d) (h2 : d < 0) :
    numHours d = 0 := by
  unfold numHours
  have h3 : d = -(-d) := by omega
  rw [h3, Int.neg_tdiv, Int.tdiv_eq_zero_of_lt (by omega) (by omega)]
  simp

theorem numHours_le_neg (d : Int) (h : d ≤ -60) : numHours d ≤ -1 := by
  unfold numHours
  have h3 : d = -(-d) := by omega
  rw [h3, Int.neg_tdiv, Int.tdiv_eq_ediv (by omega) (by omega)]
  omega

/-- `SlotManager<T>` (src/airport.rs lines 262-268).  The field named `end`
in the source is `stop` here (`end` is reserved in Lean). -/
structure SlotManager (T : Type) where
  start : Int
  stop : Int
  slots_assigned : List (List T)
  max_slot_size : Nat
deriving Repr, DecidableEq

/-- `SlotManager::new` (src/airport.rs lines 271-283): one empty bucket per
whole hour of `[start, stop)`.  (The loader only builds managers with
`start ≤ stop`; a negative hour count would make the Rust `take(n as usize)`
attempt an astronomically long collect, which `toNat`, yielding zero
buckets, does not model.) -/
def SlotManager.new (T : Type) (start stop : Int) (hourly_rate : Nat) :
    SlotManager T :=
  { start := start, stop := stop,
    slots_assigned := List.replicate (numHours (stop - start)).toNat ([] : List T),
    max_slot_size := hourly_rate }

/-- `SlotManager::contains` (src/airport.rs lines 321-323). -/
def SlotManager.contains {T : Type} (sm : SlotManager T) (time : Int) : Bool :=
  decide (sm.start ≤ time) && decide (time < sm.stop)

/-- `SlotManager::time_to_index` (src/airport.rs lines 325-327), with the
`as usize` cast that the source performs there. -/
def SlotManager.time_to_index {T : Type} (sm : SlotManager T) (time : Int) : Nat :=
  toUsize (numHours (time - sm.start))

/-- The per-slot minute spacing `(60f32 / max_slot_size as f32).min(3f32)` of
`slot_time_estimate`, in exact rational arithmetic.  For `max_slot_size = 0`
the `f32` quotient is `+inf` and the `min` yields 3 (that case is
unreachable: a rate-0 manager never allocates). -/
def slotMinutes (m : Nat) : ℚ := if m = 0 then 3 else min (60 / (m : ℚ)) 3

/-- `SlotManager::slot_time_estimate` (src/airport.rs lines 329-345):
`start + i` hours `+ round(si * min(60/max_slot_size, 3))` minutes, the `f32`
arithmetic carried out exactly in `ℚ` (`f32::round` rounds half away from
zero; the operand is nonnegative, so this agrees with `round`). -/
def SlotManager.slot_time_estimate {T : Type} (sm : SlotManager T) (i si : Nat) : Int :=
  sm.start + 60 * (i : Int) + round ((si : ℚ) * slotMinutes sm.max_slot_size)

/-- `SlotManager::slotted_at` (src/airport.rs lines 285-287); `none` models
the index-out-of-bounds panic of `self.slots_assigned[...]`. -/
def SlotManager.slotted_at {T : Type} [DecidableEq T] (sm : SlotManager T)
    (time : Int) (item : T) : Option Bool :=
  if h : sm.time_to_index time < sm.slots_assigned.length then
    some ((sm.slots_assigned.get ⟨sm.time_to_index time, h⟩).contains item)
  else none

/-- `SlotManager::drop_slot` (src/airport.rs lines 311-319); `none` models the
index-out-of-bounds panic.  `Vec::remove(pos)` is `eraseIdx pos`. -/
def SlotManager.drop_slot {T : Type} [DecidableEq T] (sm : SlotManager T)
    (time : Int) (item : T) : Option (Bool × SlotManager T) :=
  if h : sm.time_to_index time < sm.slots_assigned.length then
    match (sm.slots_assigned.get ⟨sm.time_to_index time, h⟩).findIdx? (· == item) with
    | some pos => some (true,
        { sm with slots_assigned := (sm.slots_assigned.set (sm.time_to_index time)
            ((sm.slots_assigned.get ⟨sm.time_to_index time, h⟩).eraseIdx pos)) })
    | none => some (false, sm)
  else none

/-- The existing-slot half of the `allocate_slot` scan: position of the first
bucket of the suffix that already holds `item`, with the item's index inside
that bucket (`slots.iter().enumerate().find(|(_, s)| *s == &item)`). -/
def firstExistingFrom {T : Type} [DecidableEq T] (item : T) :
    List (List T) → Option (Nat × Nat)
  | [] => none
  | b :: rest =>
    match b.findIdx? (· == item) with
    | some si => some (0, si)
    | none => (firstExistingFrom item rest).map (fun p => (p.1 + 1, p.2))

/-- The first-open half of the `allocate_slot` scan: position of the first
bucket of the suffix with `slots.len() < max_slot_size`. -/
def firstOpenFrom {T : Type} (maxSize : Nat) : List (List T) → Option Nat
  | [] => none
  | b :: rest =>
    if b.length < maxSize then some 0
    else (firstOpenFrom maxSize rest).map (· + 1)

/-- `SlotManager::allocate_slot` (src/airport.rs lines 288-309).  The single
Rust loop is decomposed into the existing-slot scan and the first-open scan:
when an existing slot is found the loop returns before `first_open` is ever
consulted, so the decomposition computes the same result.  On a fresh
allocation the item is pushed onto the first open bucket and the estimate is
taken at its new (last) position. -/
def SlotManager.allocate_slot {T : Type} [DecidableEq T] (sm : SlotManager T)
    (start_time : Int) (item : T) : Option Int × SlotManager T :=
  match firstExistingFrom item (sm.slots_assigned.drop (sm.time_to_index start_time)) with
  | some (di, si) =>
      (some (sm.slot_time_estimate (sm.time_to_index start_time + di) si), sm)
  | none =>
    match firstOpenFrom sm.max_slot_size
        (sm.slots_assigned.drop (sm.time_to_index start_time)) with
    | some dj =>
        (some (sm.slot_time_estimate (sm.time_to_index start_time + dj)
            (sm.slots_assigned.getD (sm.time_to_index start_time + dj) []).length),
          { sm with slots_assigned := (sm.slots_assigned.set
              (sm.time_to_index start_time + dj)
              ((sm.slots_assigned.getD (sm.time_to_index start_time + dj) []) ++ [item])) })
    | none => (none, sm)

theorem firstOpenFrom_lt_length {T : Type} (m : Nat) (L : List (List T))
    (dj : Nat) (h : firstOpenFrom m L = some dj) : dj < L.length := by
  induction L generalizing dj with
  | nil => simp [firstOpenFrom] at h
  | cons b rest ih =>
    simp only [firstOpenFrom] at h
    split_ifs at h with hb
    · simp only [Option.some.injEq] at h
      simp [← h]
    · obtain ⟨dj', hdj', hval⟩ := Option.map_eq_some'.mp h
      have := ih dj' hdj'
      simp only [List.length_cons]
      omega

theorem firstExistingFrom_none_parts {T : Type} [DecidableEq T] (item : T)
    (b : List T) (rest : List (List T))
    (hE : firstExistingFrom item (b :: rest) = none) :
    b.findIdx? (· == item) = none ∧ firstExistingFrom item rest = none := by
  simp only [firstExistingFrom] at hE
  cases hb : b.findIdx? (· == item) with
  | some si => rw [hb] at hE; simp at hE
  | none =>
    rw [hb] at hE
    simp only [Option.map_eq_none'] at hE
    exact ⟨rfl, hE⟩

theorem firstExistingFrom_after_push {T : Type} [DecidableEq T] (item : T)
    (m : Nat) (L : List (List T)) (dj : Nat)
    (hE : firstExistingFrom item L = none)
    (hO : firstOpenFrom m L = some dj) :
    firstExistingFrom item (L.set dj ((L.getD dj []) ++ [item])) =
      some (dj, (L.getD dj []).length) := by
  induction L generalizing dj with
  | nil => simp [firstOpenFrom] at hO
  | cons b rest ih =>
    obtain ⟨hb, hrest⟩ := firstExistingFrom_none_parts item b rest hE
    simp only [firstOpenFrom] at hO
    split_ifs at hO with hblen
    · simp only [Option.some.injEq] at hO
      subst hO
      simp only [List.getD_cons_zero, List.set_cons_zero]
      simp only [firstExistingFrom, List.findIdx?_append, hb, Option.none_or]
      rw [List.findIdx?_cons]
      simp
    · obtain ⟨dj', hdj', hval⟩ := Option.map_eq_some'.mp hO
      subst hval
      simp only [List.getD_cons_succ, List.set_cons_succ]
      simp only [firstExistingFrom, hb]
      rw [ih dj' hrest hdj']
      simp

theorem getD_drop {α : Type} (l : List α) (n m : Nat) (d : α) :
    (l.drop n).getD m d = l.getD (n + m) d := by
  simp [List.getD_eq_getElem?_getD, List.getElem?_drop]

/-- Concrete manager for the C1 counterexample: the two-hour window
`[0, 120)` at one slot per hour (`SlotManager::new(0, 120, 1)`). -/
def c1sm0 : SlotManager Nat := SlotManager.new Nat 0 120 1

/-- C1 counterexample: `allocate_slot(0, x)` places `x` in the hour-0 bucket
and returns time 0; a second `allocate_slot` for the same `x` at query time
60 — inside `[start, end) = [0, 120)` — books a second slot in hour 1 and
returns 60 instead of the item's earliest existing slot, and it changes the
bucket contents.  So idempotence fails for a later in-window query time. -/
theorem slot_allocate_second_call_ctex :
    (c1sm0.allocate_slot 0 0).1 = some 0 ∧
    c1sm0.contains 60 = true ∧
    (((c1sm0.allocate_slot 0 0).2).allocate_slot 60 0).1 = some 60 ∧
    (((c1sm0.allocate_slot 0 0).2).allocate_slot 60 0).2.slots_assigned ≠
      ((c1sm0.allocate_slot 0 0).2).slots_assigned := by
  have h1 : c1sm0.allocate_slot 0 0 =
      (some (c1sm0.slot_time_estimate 0 0),
        { c1sm0 with slots_assigned := [[0], []] }) := by
    rfl
  have hv1 : c1sm0.slot_time_estimate 0 0 = 0 := by
    simp [SlotManager.slot_time_estimate, c1sm0, SlotManager.new]
  have h2 : ({ c1sm0 with slots_assigned := [[0], []] } :
        SlotManager Nat).allocate_slot 60 0 =
      (some (({ c1sm0 with slots_assigned := [[0], []] } :
          SlotManager Nat).slot_time_estimate 1 0),
        { c1sm0 with slots_assigned := [[0], [0]] }) := by
    rfl
  have hv2 : ({ c1sm0 with slots_assigned := [[0], []] } :
      SlotManager Nat).slot_time_estimate 1 0 = 60 := by
    simp [SlotManager.slot_time_estimate, c1sm0, SlotManager.new]
  refine ⟨by rw [h1, hv1], by decide, ?_, ?_⟩
  · rw [h1]
    simp only []
    rw [h2, hv2]
  · rw [h1]
    simp only []
    rw [h2]
    decide

/-- C1 (amended): `allocate_slot` is idempotent at an unchanged query time:
calling `allocate_slot(t, x)` again on the manager returned by a first
`allocate_slot(t, x)` returns exactly the first call's time and leaves the
manager — every bucket's contents — unchanged. -/
theorem slot_allocate_idempotent {T : Type} [DecidableEq T]
    (sm : SlotManager T) (t : Int) (x : T) :
    ((sm.allocate_slot t x).2).allocate_slot t x = sm.allocate_slot t x := by
  cases hE : firstExistingFrom x (sm.slots_assigned.drop (sm.time_to_index t)) with
  | some p =>
    obtain ⟨di, si⟩ := p
    have h2 : sm.allocate_slot t x =
        (some (sm.slot_time_estimate (sm.time_to_index t + di) si), sm) := by
      unfold SlotManager.allocate_slot
      rw [hE]
    rw [h2]
    exact h2
  | none =>
    cases hO : firstOpenFrom sm.max_slot_size
        (sm.slots_assigned.drop (sm.time_to_index t)) with
    | none =>
      have h2 : sm.allocate_slot t x = (none, sm) := by
        unfold SlotManager.allocate_slot
        rw [hE, hO]
      rw [h2]
      exact h2
    | some dj =>
      have hpush := firstExistingFrom_after_push x sm.max_slot_size
        (sm.slots_assigned.drop (sm.time_to_index t)) dj hE hO
      have h2 : sm.allocate_slot t x =
          (some (sm.slot_time_estimate (sm.time_to_index t + dj)
              (sm.slots_assigned.getD (sm.time_to_index t + dj) []).length),
            { sm with slots_assigned := (sm.slots_assigned.set
                (sm.time_to_index t + dj)
                ((sm.slots_assigned.getD (sm.time_to_index t + dj) []) ++ [x])) }) := by
        unfold SlotManager.allocate_slot
        rw [hE, hO]
      rw [h2]
      have hdrop : (sm.slots_assigned.set (sm.time_to_index t + dj)
            ((sm.slots_assigned.getD (sm.time_to_index t + dj) []) ++ [x])).drop
              (sm.time_to_index t)
          = (sm.slots_assigned.drop (sm.time_to_index t)).set dj
            (((sm.slots_assigned.drop (sm.time_to_index t)).getD dj []) ++ [x]) := by
        rw [List.drop_set]
        have hcond : ¬ (sm.time_to_index t + dj < sm.time_to_index t) := by omega
        rw [if_neg hcond, Nat.add_sub_cancel_left, getD_drop]
      show ({ sm with slots_assigned := (sm.slots_assigned.set
          (sm.time_to_index t + dj)
          ((sm.slots_assigned.getD (sm.time_to_index t + dj) []) ++ [x])) } :
            SlotManager T).allocate_slot t x = _
      unfold SlotManager.allocate_slot
      show (match firstExistingFrom x ((sm.slots_assigned.set
          (sm.time_to_index t + dj)
          ((sm.slots_assigned.getD (sm.time_to_index t + dj) []) ++ [x])).drop
            (sm.time_to_index t)) with
        | some (di, si) => _
        | none => _) = _
      rw [hdrop, hpush, getD_drop]
      rfl

/-! ## Flights and passenger demand (src/aircraft.rs, src/airport.rs) -/

/-- `AirportCode` (src/airport.rs lines 16-27): a 3-byte identifier compared
by value; the identity is all the core logic uses, so it is a `Nat` here. -/
abbrev AirportCode := Nat

/-- `FlightId` (src/aircraft.rs line 8): `u64`. -/
abbrev FlightId := Nat

/-- `CrewId` (src/crew.rs line 7): `u32`. -/
abbrev CrewId := Nat

/-- `PassengerDemand` (src/airport.rs lines 147-152). -/
structure PassengerDemand where
  path : List AirportCode
  count : Nat
  flights_taken : List FlightId
deriving Repr, DecidableEq

/-- `PassengerDemand::next_dest` (src/airport.rs lines 155-161):
`path.iter().skip_while(|code| **code != now).nth(1)`. -/
def PassengerDemand.next_dest (d : PassengerDemand) (now : AirportCode) :
    Option AirportCode :=
  ((d.path.dropWhile (fun code => code ≠ now)).drop 1).head?

/-- `PassengerDemand::split_off` (src/airport.rs lines 163-176).  `none`
models the panics: the `assert!(count > 0)`, and the `u32` underflow of
`self.count -= count` when `count > self.count`.  On success it returns the
mutated `self` (count decreased by `count`) and the new demand (same path,
count `count`, the flight id appended to `flights_taken`). -/
def PassengerDemand.split_off (d : PassengerDemand) (count : Nat)
    (flight : FlightId) : Option (PassengerDemand × PassengerDemand) :=
  if count = 0 then none
  else if d.count < count then none
  else some ({ d with count := d.count - count },
    { path := d.path, count := count, flights_taken := d.flights_taken ++ [flight] })

/-- `Flight` (src/aircraft.rs lines 15-32). -/
structure Flight where
  id : FlightId
  flight_number : String
  aircraft_tail : Option String
  crew : List CrewId
  passengers : List PassengerDemand
  origin : AirportCode
  dest : AirportCode
  cancelled : Bool
  depart_time : Option Int
  arrive_time : Option Int
  dep_delay : Int
  accum_delay : Option Int
  sched_depart : Int
  sched_arrive : Int
deriving Repr, DecidableEq

/-- `Flight::took_off` (src/aircraft.rs lines 42-44). -/
def Flight.took_off (f : Flight) : Bool := f.depart_time.isSome

/-- `Flight::est_duration` (src/aircraft.rs lines 60-62). -/
def Flight.est_duration (f : Flight) : Int := f.sched_arrive - f.sched_depart

/-- `Flight::est_arrive_time` (src/aircraft.rs lines 46-49). -/
def Flight.est_arrive_time (f : Flight) (depart : Int) : Int :=
  depart + (f.est_duration + f.accum_delay.getD 0)

/-- `Flight::act_arrive_time` (src/aircraft.rs lines 51-57); panics (`none`)
when the flight has not departed. -/
def Flight.act_arrive_time (f : Flight) : Option Int :=
  f.depart_time.map (fun dep => f.est_arrive_time dep)

/-- `Flight::takeoff` (src/aircraft.rs lines 64-66). -/
def Flight.takeoff (f : Flight) (time : Int) : Flight :=
  { f with depart_time := some time }

/-- `Flight::land` (src/aircraft.rs lines 68-70). -/
def Flight.land (f : Flight) (time : Int) : Flight :=
  { f with arrive_time := some time }

/-- `Flight::delay_departure` (src/aircraft.rs lines 72-74). -/
def Flight.delay_departure (f : Flight) (delay : Int) : Flight :=
  { f with dep_delay := f.dep_delay + delay }

/-- `Flight::delay_arrival` (src/aircraft.rs lines 76-78). -/
def Flight.delay_arrival (f : Flight) (duration : Int) : Flight :=
  { f with accum_delay := some (f.accum_delay.getD 0 + duration) }

/-! ## GroundDelayProgram and DepartureRateLimit (src/airport.rs lines 431-590) -/

/-- `GroundDelayProgram` (src/airport.rs lines 431-437). -/
structure GroundDelayProgram where
  site : AirportCode
  slots : SlotManager FlightId
  reason : Option String
deriving Repr

/-- `GroundDelayProgram::request_depart` (src/airport.rs lines 450-478).
`modelNow` is `model.now()`; `time` is the query time.  `none` models a
panic inside `slotted_at`. -/
def GroundDelayProgram.request_depart (g : GroundDelayProgram) (f : Flight)
    (modelNow time : Int) : Option (Clearance × GroundDelayProgram) :=
  if f.dest ≠ g.site then some (.Cleared, g)
  else if ¬ (g.slots.contains (f.est_arrive_time time) = true) then some (.Cleared, g)
  else
    match g.slots.slotted_at (f.est_arrive_time time) f.id with
    | none => none
    | some true => some (.Cleared, g)
    | some false =>
      match g.slots.allocate_slot (f.est_arrive_time time) f.id with
      | (some edct, slots') =>
          some (.EDCT (max modelNow edct - f.est_duration), { g with slots := slots' })
      | (none, slots') =>
          some (.Deferred (g.slots.stop - f.est_duration), { g with slots := slots' })

/-- `GroundDelayProgram::void_depart_clearance` (src/airport.rs lines 480-487). -/
def GroundDelayProgram.void_depart_clearance (g : GroundDelayProgram) (f : Flight)
    (time : Int) : Option GroundDelayProgram :=
  if g.slots.contains (f.est_arrive_time time) = true then
    (g.slots.drop_slot (f.est_arrive_time time) f.id).map
      (fun p => { g with slots := p.2 })
  else some g

/-- `DepartureRateLimit` (src/airport.rs lines 519-524). -/
structure DepartureRateLimit where
  site : AirportCode
  slots : SlotManager FlightId
  reason : Option String
deriving Repr

/-- `DepartureRateLimit::request_depart` (src/airport.rs lines 526-557). -/
def DepartureRateLimit.request_depart (d : DepartureRateLimit) (f : Flight)
    (modelNow time : Int) : Option (Clearance × DepartureRateLimit) :=
  if f.origin ≠ d.site then some (.Cleared, d)
  else if ¬ (d.slots.contains time = true) then some (.Cleared, d)
  else
    match d.slots.slotted_at time f.id with
    | none => none
    | some true => some (.Cleared, d)
    | some false =>
      match d.slots.allocate_slot time f.id with
      | (some edct, slots') =>
          if edct ≤ modelNow then some (.Cleared, { d with slots := slots' })
          else some (.EDCT (max modelNow edct), { d with slots := slots' })
      | (none, slots') =>
          if d.slots.stop = modelNow then some (.Cleared, { d with slots := slots' })
          else some (.Deferred d.slots.stop, { d with slots := slots' })

/-- `DepartureRateLimit::void_depart_clearance` (src/airport.rs lines 559-565). -/
def DepartureRateLimit.void_depart_clearance (d : DepartureRateLimit) (f : Flight)
    (time : Int) : Option DepartureRateLimit :=
  if d.slots.contains time = true then
    (d.slots.drop_slot time f.id).map (fun p => { d with slots := p.2 })
  else some d

/-! ## C9: index bounds of the slot operations and the `contains` guards -/

theorem numHours_neg_eq (d : Int) (h : d ≤ 0) : numHours d = -((-d) / 60) := by
  unfold numHours
  conv_lhs => rw [show d = -(-d) by omega]
  rw [Int.neg_tdiv, Int.tdiv_eq_ediv (by omega) (by omega)]

/-- Well-formedness that `SlotManager::new` establishes for a whole-hours
window: one bucket per hour, and an hour count in `i64` range. -/
def SlotManager.WF {T : Type} (sm : SlotManager T) : Prop :=
  sm.stop - sm.start = 60 * (sm.slots_assigned.length : Int) ∧
  (sm.slots_assigned.length : Int) < 9223372036854775808

theorem time_to_index_lt_of_contains {T : Type} (sm : SlotManager T)
    (hwf : sm.WF) (t : Int) (hc : sm.contains t = true) :
    sm.time_to_index t < sm.slots_assigned.length := by
  obtain ⟨hlen, hbound⟩ := hwf
  simp only [SlotManager.contains, Bool.and_eq_true, decide_eq_true_eq] at hc
  unfold SlotManager.time_to_index toUsize
  rw [numHours_of_nonneg _ (by omega)]
  omega

theorem time_to_index_lt_iff {T : Type} (sm : SlotManager T) (hwf : sm.WF)
    (hne : sm.start < sm.stop) (t : Int)
    (hlo : sm.start - 276701161105643274240 ≤ t)
    (hhi : t ≤ sm.start + 276701161105643274240) :
    (sm.time_to_index t < sm.slots_assigned.length) ↔
      (sm.start - 60 < t ∧ t < sm.stop) := by
  obtain ⟨hlen, hbound⟩ := hwf
  unfold SlotManager.time_to_index toUsize
  constructor
  · intro h
    by_contra hcon
    push_neg at hcon
    rcases lt_or_le (sm.start - 60) t with hgt | hle
    · have hts : sm.stop ≤ t := hcon hgt
      rw [numHours_of_nonneg _ (by omega)] at h
      omega
    · rw [numHours_neg_eq _ (by omega)] at h
      omega
  · rintro ⟨h1, h2⟩
    rcases le_or_lt sm.start t with hst | hst
    · rw [numHours_of_nonneg _ (by omega)]
      omega
    · rw [numHours_neg_small _ (by omega) (by omega)]
      omega

theorem slotted_at_isSome_iff {T : Type} [DecidableEq T] (sm : SlotManager T)
    (t : Int) (x : T) :
    ((sm.slotted_at t x).isSome = true) ↔
      sm.time_to_index t < sm.slots_assigned.length := by
  unfold SlotManager.slotted_at
  split_ifs with h <;> simp [h]

theorem drop_slot_isSome_iff {T : Type} [DecidableEq T] (sm : SlotManager T)
    (t : Int) (x : T) :
    ((sm.drop_slot t x).isSome = true) ↔
      sm.time_to_index t < sm.slots_assigned.length := by
  unfold SlotManager.drop_slot
  by_cases h : sm.time_to_index t < sm.slots_assigned.length
  · rw [dif_pos h]
    cases hf : (sm.slots_assigned.get ⟨sm.time_to_index t, h⟩).findIdx? (· == x) <;>
      simp [hf, h]
  · rw [dif_neg h]
    simp [h]

theorem slotted_at_eq_some {T : Type} [DecidableEq T] (sm : SlotManager T)
    (t : Int) (x : T) (h : sm.time_to_index t < sm.slots_assigned.length) :
    sm.slotted_at t x =
      some ((sm.slots_assigned.get ⟨sm.time_to_index t, h⟩).contains x) := by
  unfold SlotManager.slotted_at
  rw [dif_pos h]

theorem gdp_request_depart_isSome (g : GroundDelayProgram) (f : Flight)
    (modelNow time : Int) (hwf : g.slots.WF) :
    (g.request_depart f modelNow time).isSome = true := by
  unfold GroundDelayProgram.request_depart
  by_cases h1 : f.dest ≠ g.site
  · rw [if_pos h1]; simp
  · rw [if_neg h1]
    by_cases h2 : ¬ (g.slots.contains (f.est_arrive_time time) = true)
    · rw [if_pos h2]; simp
    · rw [if_neg h2]
      rw [not_not] at h2
      have hlt := time_to_index_lt_of_contains g.slots hwf _ h2
      rw [slotted_at_eq_some g.slots _ f.id hlt]
      cases hb : (g.slots.slots_assigned.get
          ⟨g.slots.time_to_index (f.est_arrive_time time), hlt⟩).contains f.id
      · rcases ha : g.slots.allocate_slot (f.est_arrive_time time) f.id with
          ⟨fst, slots'⟩
        cases fst <;> simp [ha]
      · simp

theorem gdp_void_isSome (g : GroundDelayProgram) (f : Flight) (time : Int)
    (hwf : g.slots.WF) :
    (g.void_depart_clearance f time).isSome = true := by
  unfold GroundDelayProgram.void_depart_clearance
  split_ifs with h1
  · rw [Option.isSome_map']
    exact (drop_slot_isSome_iff g.slots _ f.id).mpr
      (time_to_index_lt_of_contains g.slots hwf _ h1)
  · simp

theorem drl_request_depart_isSome (d : DepartureRateLimit) (f : Flight)
    (modelNow time : Int) (hwf : d.slots.WF) :
    (d.request_depart f modelNow time).isSome = true := by
  unfold DepartureRateLimit.request_depart
  by_cases h1 : f.origin ≠ d.site
  · rw [if_pos h1]; simp
  · rw [if_neg h1]
    by_cases h2 : ¬ (d.slots.contains time = true)
    · rw [if_pos h2]; simp
    · rw [if_neg h2]
      rw [not_not] at h2
      have hlt := time_to_index_lt_of_contains d.slots hwf _ h2
      rw [slotted_at_eq_some d.slots _ f.id hlt]
      cases hb : (d.slots.slots_assigned.get
          ⟨d.slots.time_to_index time, hlt⟩).contains f.id
      · rcases ha : d.slots.allocate_slot time f.id with ⟨fst, slots'⟩
        cases fst <;> simp [ha] <;> split_ifs <;> simp
      · simp

theorem drl_void_isSome (d : DepartureRateLimit) (f : Flight) (time : Int)
    (hwf : d.slots.WF) :
    (d.void_depart_clearance f time).isSome = true := by
  unfold DepartureRateLimit.void_depart_clearance
  split_ifs with h1
  · rw [Option.isSome_map']
    exact (drop_slot_isSome_iff d.slots _ f.id).mpr
      (time_to_index_lt_of_contains d.slots hwf _ h1)
  · simp

/-- Concrete manager for the C9 counterexample (`SlotManager::new(0, 120, 1)`). -/
def c9sm : SlotManager Nat := SlotManager.new Nat 0 120 1

/-- C9 counterexample: for a query time 30 minutes before the window start,
`time_to_index` computes `num_hours(-30) = 0` (truncation toward zero), so
`slotted_at` indexes bucket 0 in bounds and does not panic, although
`start ≤ t` fails.  The claimed "in bounds iff `start ≤ t < end`" is
therefore false on the left edge. -/
theorem slot_index_bounds_ctex :
    (c9sm.slotted_at (-30) 7).isSome = true ∧
    c9sm.contains (-30) = false ∧
    ((-30 : Int) < c9sm.start) := by
  refine ⟨by decide, by decide, by decide⟩

/-- C9 (amended): for a whole-hours window (`WF`, as built by
`SlotManager::new`) with `start < stop`, `slotted_at` and `drop_slot` index
in bounds — and hence run without panicking — exactly when
`start - 1h < t < stop` (times within `i64` hour range of `start`): the hour
truncated toward zero sends the whole open hour before `start` to bucket 0.
`GroundDelayProgram` and `DepartureRateLimit` guard every `slotted_at`,
`allocate_slot` and `drop_slot` call behind `contains`, so their
`request_depart` and `void_depart_clearance` never panic on any input. -/
theorem slot_ops_in_bounds_iff_and_guarded :
    (∀ (sm : SlotManager Nat) (x : Nat) (t : Int), sm.WF → sm.start < sm.stop →
      sm.start - 276701161105643274240 ≤ t →
      t ≤ sm.start + 276701161105643274240 →
      (((sm.slotted_at t x).isSome = true) ↔ (sm.start - 60 < t ∧ t < sm.stop))) ∧
    (∀ (sm : SlotManager Nat) (x : Nat) (t : Int), sm.WF → sm.start < sm.stop →
      sm.start - 276701161105643274240 ≤ t →
      t ≤ sm.start + 276701161105643274240 →
      (((sm.drop_slot t x).isSome = true) ↔ (sm.start - 60 < t ∧ t < sm.stop))) ∧
    (∀ (g : GroundDelayProgram) (f : Flight) (modelNow t : Int), g.slots.WF →
      (g.request_depart f modelNow t).isSome = true ∧
      (g.void_depart_clearance f t).isSome = true) ∧
    (∀ (d : DepartureRateLimit) (f : Flight) (modelNow t : Int), d.slots.WF →
      (d.request_depart f modelNow t).isSome = true ∧
      (d.void_depart_clearance f t).isSome = true) := by
  refine ⟨?_, ?_, ?_, ?_⟩
  · intro sm x t hwf hne hlo hhi
    rw [slotted_at_isSome_iff]
    exact time_to_index_lt_iff sm hwf hne t hlo hhi
  · intro sm x t hwf hne hlo hhi
    rw [drop_slot_isSome_iff]
    exact time_to_index_lt_iff sm hwf hne t hlo hhi
  · intro g f modelNow t hwf
    exact ⟨gdp_request_depart_isSome g f modelNow t hwf,
      gdp_void_isSome g f t hwf⟩
  · intro d f modelNow t hwf
    exact ⟨drl_request_depart_isSome d f modelNow t hwf,
      drl_void_isSome d f t hwf⟩

/-- A concrete GDP and flight exercising C9's amended theorem. -/
def c9gdp : GroundDelayProgram :=
  { site := 1, slots := SlotManager.new Nat 0 120 1, reason := none }

/-- A minimal concrete flight (DEN=0 to LGA=1, scheduled 0 to 60). -/
def c9flight : Flight :=
  { id := 0, flight_number := "", aircraft_tail := none, crew := [],
    passengers := [], origin := 0, dest := 1, cancelled := false,
    depart_time := none, arrive_time := none, dep_delay := 0,
    accum_delay := none, sched_depart := 0, sched_arrive := 60 }

/-- Witness for C9's amended theorem at concrete inputs. -/
theorem slot_ops_in_bounds_witness :
    ((SlotManager.new Nat 0 120 1).slotted_at 30 5).isSome = true ∧
    (c9gdp.request_depart c9flight 0 0).isSome = true := by
  constructor
  · exact (slot_ops_in_bounds_iff_and_guarded.1 (SlotManager.new Nat 0 120 1) 5 30
      (by constructor <;> decide) (by decide) (by decide) (by decide)).mpr
      (by constructor <;> decide)
  · exact (slot_ops_in_bounds_iff_and_guarded.2.2.1 c9gdp c9flight 0 0
      (by constructor <;> decide)).1

/-! ## Airport (src/airport.rs lines 46-145) and delay/cancel reasons -/

/-- `DelayReason` with the payloads the dispatcher attaches
(src/dispatcher.rs; the copy of `metrics.rs` in the tree is an older
revision without payloads). -/
inductive DelayReason where
  | CrewShortage : List CrewId → DelayReason
  | AircraftShortage : Option String → DelayReason
  | Disrupted : String → DelayReason
  | RateLimited : AirportCode → DelayReason
deriving Repr, DecidableEq

/-- `CancelReason` (src/metrics.rs lines 30-34). -/
inductive CancelReason where
  | HeavyExpectedDelay : DelayReason → CancelReason
  | DelayTimedOut : CancelReason
deriving Repr, DecidableEq

/-- `Airport` (src/airport.rs lines 46-58).  The `HashSet` rosters are plain
lists here (the claims under verification do not depend on their set
semantics); `departure_count`/`arrival_count` are the `(window_start, count)`
pairs. -/
structure Airport where
  code : AirportCode
  fleet : List String
  crew : List CrewId
  passengers : List PassengerDemand
  max_dep_per_hour : Nat
  max_arr_per_hour : Nat
  departure_count : Int × Nat
  arrival_count : Int × Nat
deriving Repr, DecidableEq

/-- `Airport::depart_time` (src/airport.rs lines 61-72). -/
def Airport.depart_time (a : Airport) (time : Int) : Int :=
  if time - a.departure_count.1 ≥ 60 then time
  else if a.departure_count.2 < a.max_dep_per_hour then time
  else a.departure_count.1 + 60

/-- `Airport::arrive_time` (src/airport.rs lines 87-98). -/
def Airport.arrive_time (a : Airport) (time : Int) : Int :=
  if time - a.arrival_count.1 ≥ 60 then time
  else if a.arrival_count.2 < a.max_arr_per_hour then time
  else a.arrival_count.1 + 60

/-- The loop body of `Airport::deduct_passengers` (src/airport.rs lines
111-135), walking the airport's demand list in order: stop when capacity is
exhausted, skip demands not headed to `dest`, and split
`min(demand.count, capacity)` passengers off onto the flight.  Returns the
walked demand list (with decremented counts) and the split-off groups in
order; `none` propagates a `split_off` panic. -/
def deductLoop (code dest : AirportCode) (flight : FlightId) :
    Int → List PassengerDemand → Option (List PassengerDemand × List PassengerDemand)
  | _, [] => some ([], [])
  | capacity, d :: rest =>
    if capacity ≤ 0 then some (d :: rest, [])
    else if d.next_dest code ≠ some dest then
      (deductLoop code dest flight capacity rest).map (fun p => (d :: p.1, p.2))
    else
      match d.split_off (min d.count capacity.toNat) flight with
      | none => none
      | some (d', grp) =>
        (deductLoop code dest flight (capacity - min d.count capacity.toNat) rest).map
          (fun p => (d' :: p.1, grp :: p.2))

/-- `Airport::deduct_passengers` (src/airport.rs lines 111-135): run the loop
against this airport's demands, then `retain(|demand| demand.count > 0)`;
the split-off groups are pushed onto the flight's `onboard` vector. -/
def Airport.deduct_passengers (a : Airport) (flight : FlightId)
    (dest : AirportCode) (capacity : Nat) (onboard : List PassengerDemand) :
    Option (Airport × List PassengerDemand) :=
  (deductLoop a.code dest flight (capacity : Int) a.passengers).map
    (fun p => ({ a with passengers := p.1.filter (fun d => decide (0 < d.count)) },
      onboard ++ p.2))

/-- `Airport::mark_departure` (src/airport.rs lines 75-84): bump or reset the
departure counter, remove the flight's aircraft and crews from the ground
rosters, and load passengers.  `none` models the
`flight.aircraft_tail.as_ref().unwrap()` panic (the `debug_assert!` around
`fleet.remove` is release-mode silent and is not modelled as a panic). -/
def Airport.mark_departure (a : Airport) (time : Int) (f : Flight)
    (capacity : Nat) : Option (Airport × Flight) :=
  match f.aircraft_tail with
  | none => none
  | some tail =>
    let counted := if time - a.departure_count.1 ≥ 60
      then { a with departure_count := (time, 1) }
      else { a with departure_count := (a.departure_count.1, a.departure_count.2 + 1) }
    let removed :=
      { counted with
        fleet := counted.fleet.erase tail,
        crew := counted.crew.filter (fun c => ! f.crew.contains c) }
    (removed.deduct_passengers f.id f.dest capacity f.passengers).map
      (fun p => (p.1, { f with passengers := p.2 }))

/-- The filter of `Airport::accept_passengers` (src/airport.rs lines
137-144): keep groups whose itinerary terminus is not this airport; `none`
models the `path.last().unwrap()` panic on an empty path. -/
def acceptFilter (code : AirportCode) :
    List PassengerDemand → Option (List PassengerDemand)
  | [] => some []
  | d :: rest =>
    match d.path.getLast? with
    | none => none
    | some lastCode =>
      (acceptFilter code rest).map
        (fun r => if lastCode ≠ code then d :: r else r)

/-- `Airport::mark_arrival` (src/airport.rs lines 100-109): bump or reset the
arrival counter, put the aircraft and crews back on the ground, and offload
passengers.  `none` models the `aircraft_tail.clone().unwrap()` panic. -/
def Airport.mark_arrival (a : Airport) (time : Int) (f : Flight) :
    Option Airport :=
  match f.aircraft_tail with
  | none => none
  | some tail =>
    let counted := if time - a.arrival_count.1 ≥ 60
      then { a with arrival_count := (time, 1) }
      else { a with arrival_count := (a.arrival_count.1, a.arrival_count.2 + 1) }
    (acceptFilter a.code f.passengers).map
      (fun kept =>
        { counted with
          fleet := counted.fleet ++ [tail],
          crew := counted.crew ++ f.crew,
          passengers := counted.passengers ++ kept })

/-! ## C10: split_off precondition and its only caller -/

theorem PassengerDemand.split_off_pos (d : PassengerDemand) (k : Nat)
    (f : FlightId) (h1 : 0 < k) (h2 : k ≤ d.count) :
    d.split_off k f = some ({ d with count := d.count - k },
      { path := d.path, count := k, flights_taken := d.flights_taken ++ [f] }) := by
  unfold PassengerDemand.split_off
  rw [if_neg (by omega), if_neg (by omega)]

theorem deductLoop_isSome (code dest : AirportCode) (flight : FlightId) :
    ∀ (demands : List PassengerDemand) (capacity : Int),
    (∀ d ∈ demands, 0 < d.count) →
    (deductLoop code dest flight capacity demands).isSome = true := by
  intro demands
  induction demands with
  | nil => intro capacity _; simp [deductLoop]
  | cons d rest ih =>
    intro capacity hpos
    unfold deductLoop
    split_ifs with hcap hnd
    · simp
    · rw [Option.isSome_map']
      exact ih capacity (fun x hx => hpos x (List.mem_cons_of_mem _ hx))
    · have hd : 0 < d.count := hpos d (List.mem_cons_self _ _)
      have hcap' : 0 < capacity.toNat := by omega
      rw [PassengerDemand.split_off_pos d _ flight (by omega) (min_le_left _ _)]
      simp only [Option.isSome_map']
      exact ih _ (fun x hx => hpos x (List.mem_cons_of_mem _ hx))

/-- C10: `split_off(k, f)` has the unstated precondition `0 < k ≤ count`:
`k = 0` panics on the `assert!`, `k > count` underflows the unsigned
subtraction; within the precondition it decreases `count` by exactly `k` and
returns a new demand with the same path, count `k`, and `f` appended to
`flights_taken`.  Its only caller, the `deduct_passengers` loop, passes
`k = min(demand.count, capacity)` only when `capacity > 0`, so over any
demand list with positive counts the loop never panics. -/
theorem split_off_precondition_and_caller :
    (∀ (d : PassengerDemand) (f : FlightId), d.split_off 0 f = none) ∧
    (∀ (d : PassengerDemand) (k : Nat) (f : FlightId), d.count < k →
      d.split_off k f = none) ∧
    (∀ (d : PassengerDemand) (k : Nat) (f : FlightId), 0 < k → k ≤ d.count →
      d.split_off k f = some ({ d with count := d.count - k },
        { path := d.path, count := k, flights_taken := d.flights_taken ++ [f] })) ∧
    (∀ (code dest : AirportCode) (flight : FlightId) (capacity : Int)
      (demands : List PassengerDemand), (∀ d ∈ demands, 0 < d.count) →
      (deductLoop code dest flight capacity demands).isSome = true) := by
  refine ⟨?_, ?_, ?_, ?_⟩
  · intro d f
    simp [PassengerDemand.split_off]
  · intro d k f h
    unfold PassengerDemand.split_off
    rw [if_neg (by omega), if_pos h]
  · exact PassengerDemand.split_off_pos
  · intro code dest flight capacity demands hpos
    exact deductLoop_isSome code dest flight demands capacity hpos

/-- Witness for C10 at a concrete demand list and split. -/
theorem split_off_precondition_witness :
    (deductLoop 0 1 9 3 [⟨[0, 1], 5, []⟩]).isSome = true ∧
    (PassengerDemand.mk [0, 1] 5 []).split_off 2 9 =
      some (⟨[0, 1], 3, []⟩, ⟨[0, 1], 2, [9]⟩) := by
  constructor
  · exact split_off_precondition_and_caller.2.2.2 0 1 9 3 [⟨[0, 1], 5, []⟩]
      (by decide)
  · exact split_off_precondition_and_caller.2.2.1 ⟨[0, 1], 5, []⟩ 2 9
      (by decide) (by decide)

/-! ## C5: hourly rate counters over the dispatcher loop -/

theorem mark_departure_counters (a : Airport) (time : Int) (f : Flight)
    (cap : Nat) (a' : Airport) (f' : Flight)
    (h : a.mark_departure time f cap = some (a', f')) :
    a'.max_dep_per_hour = a.max_dep_per_hour ∧
    a'.max_arr_per_hour = a.max_arr_per_hour ∧
    a'.arrival_count = a.arrival_count ∧
    a'.departure_count = (if time - a.departure_count.1 ≥ 60 then (time, 1)
      else (a.departure_count.1, a.departure_count.2 + 1)) := by
  unfold Airport.mark_departure Airport.deduct_passengers at h
  cases hft : f.aircraft_tail with
  | none => rw [hft] at h; simp at h
  | some tail =>
    rw [hft] at h
    obtain ⟨p, hp, heqp⟩ := Option.map_eq_some'.mp h
    obtain ⟨q, hq, heqq⟩ := Option.map_eq_some'.mp hp
    subst heqq
    rw [Prod.ext_iff] at heqp
    obtain ⟨ha, hf⟩ := heqp
    subst ha
    refine ⟨?_, ?_, ?_, ?_⟩ <;> split_ifs <;> rfl

theorem mark_arrival_counters (a : Airport) (time : Int) (f : Flight)
    (a' : Airport) (h : a.mark_arrival time f = some a') :
    a'.max_dep_per_hour = a.max_dep_per_hour ∧
    a'.max_arr_per_hour = a.max_arr_per_hour ∧
    a'.departure_count = a.departure_count ∧
    a'.arrival_count = (if time - a.arrival_count.1 ≥ 60 then (time, 1)
      else (a.arrival_count.1, a.arrival_count.2 + 1)) := by
  unfold Airport.mark_arrival at h
  cases hft : f.aircraft_tail with
  | none => rw [hft] at h; simp at h
  | some tail =>
    rw [hft] at h
    obtain ⟨q, hq, heq⟩ := Option.map_eq_some'.mp h
    subst heq
    refine ⟨?_, ?_, ?_, ?_⟩ <;> split_ifs <;> rfl

/-- One airport-visible step of the dispatcher loop: either the clock
advances to the next event (event times are nondecreasing), or the departure
gate passes (`Airport::depart_time(now) = now`, src/dispatcher.rs lines
569-583) and `Model::depart_flight` invokes `mark_departure(now)`
(src/model.rs line 88), or the arrival gate passes (src/dispatcher.rs lines
649-674) and `Model::arrive_flight` invokes `mark_arrival(now)`
(src/model.rs line 116). -/
inductive AirportStep : Airport × Int → Airport × Int → Prop where
  | advance (a : Airport) (now nxt : Int) :
      now ≤ nxt → AirportStep (a, now) (a, nxt)
  | markDep (a : Airport) (now : Int) (f : Flight) (cap : Nat)
      (a' : Airport) (f' : Flight) :
      a.depart_time now = now →
      a.mark_departure now f cap = some (a', f') →
      AirportStep (a, now) (a', now)
  | markArr (a : Airport) (now : Int) (f : Flight) (a' : Airport) :
      a.arrive_time now = now →
      a.mark_arrival now f = some a' →
      AirportStep (a, now) (a', now)

/-- The rate-cap invariant of spec §3: within an open one-hour window each
counter stays within its cap. -/
def Airport.counterInv (a : Airport) (now : Int) : Prop :=
  (now - a.departure_count.1 < 60 → a.departure_count.2 ≤ a.max_dep_per_hour) ∧
  (now - a.arrival_count.1 < 60 → a.arrival_count.2 ≤ a.max_arr_per_hour)

theorem airportStep_preserves (s t : Airport × Int) (h : AirportStep s t)
    (hdep : 1 ≤ s.1.max_dep_per_hour) (harr : 1 ≤ s.1.max_arr_per_hour)
    (hinv : s.1.counterInv s.2) :
    t.1.max_dep_per_hour = s.1.max_dep_per_hour ∧
    t.1.max_arr_per_hour = s.1.max_arr_per_hour ∧
    t.1.counterInv t.2 := by
  obtain ⟨hinvd, hinva⟩ := hinv
  cases h with
  | advance a now nxt hle =>
    dsimp only at hinvd hinva ⊢
    exact ⟨rfl, rfl, fun hw => hinvd (by omega), fun hw => hinva (by omega)⟩
  | markDep a now f cap a' f' hgate hmark =>
    obtain ⟨hm1, hm2, hm3, hm4⟩ := mark_departure_counters a now f cap a' f' hmark
    dsimp only at hinvd hinva hdep harr ⊢
    refine ⟨hm1, hm2, ?_, ?_⟩
    · intro hw
      rw [hm1]
      by_cases hc : now - a.departure_count.1 ≥ 60
      · rw [if_pos hc] at hm4
        rw [hm4]
        exact hdep
      · rw [if_neg hc] at hm4
        rw [hm4]
        have hcount : a.departure_count.2 < a.max_dep_per_hour := by
          unfold Airport.depart_time at hgate
          rw [if_neg hc] at hgate
          by_contra hge
          rw [if_neg (by omega)] at hgate
          omega
        simpa using hcount
    · intro hw
      rw [hm2, hm3]
      exact hinva (by rw [hm3] at hw; omega)
  | markArr a now f a' hgate hmark =>
    obtain ⟨hm1, hm2, hm3, hm4⟩ := mark_arrival_counters a now f a' hmark
    dsimp only at hinvd hinva hdep harr ⊢
    refine ⟨hm1, hm2, ?_, ?_⟩
    · intro hw
      rw [hm1, hm3]
      exact hinvd (by rw [hm3] at hw; omega)
    · intro hw
      rw [hm2]
      by_cases hc : now - a.arrival_count.1 ≥ 60
      · rw [if_pos hc] at hm4
        rw [hm4]
        exact harr
      · rw [if_neg hc] at hm4
        rw [hm4]
        have hcount : a.arrival_count.2 < a.max_arr_per_hour := by
          unfold Airport.arrive_time at hgate
          rw [if_neg hc] at hgate
          by_contra hge
          rw [if_neg (by omega)] at hgate
          omega
        simpa using hcount

theorem airport_reach_aux (s t : Airport × Int)
    (h : Relation.ReflTransGen AirportStep s t)
    (hdep : 1 ≤ s.1.max_dep_per_hour) (harr : 1 ≤ s.1.max_arr_per_hour)
    (hinv : s.1.counterInv s.2) :
    t.1.max_dep_per_hour = s.1.max_dep_per_hour ∧
    t.1.max_arr_per_hour = s.1.max_arr_per_hour ∧
    t.1.counterInv t.2 := by
  induction h with
  | refl => exact ⟨rfl, rfl, hinv⟩
  | tail hchain hstep ih =>
    obtain ⟨e1, e2, einv⟩ := ih
    obtain ⟨f1, f2, finv⟩ := airportStep_preserves _ _ hstep
      (by omega) (by omega) einv
    exact ⟨by rw [f1, e1], by rw [f2, e2], finv⟩

/-- C5 (amended): over every state of the dispatcher loop reachable from an
initial airport whose caps are at least 1 and whose counters satisfy the
invariant (the loader starts them at `(now, 0)`), the departure counter never
exceeds `max_dep_per_hour` and the arrival counter never exceeds
`max_arr_per_hour` while the one-hour window is open; and whenever the hour
has elapsed at a new event, `mark_departure`/`mark_arrival` reset the window
to `(now, 1)`.  The cap-at-least-1 hypothesis is necessary: with a cap of 0
a stale window still lets the gate pass and the reset puts the count at 1. -/
theorem airport_rate_caps_bounded :
    (∀ (a0 : Airport) (now0 : Int) (a : Airport) (now : Int),
      Relation.ReflTransGen AirportStep (a0, now0) (a, now) →
      1 ≤ a0.max_dep_per_hour → 1 ≤ a0.max_arr_per_hour →
      a0.counterInv now0 →
      (now - a.departure_count.1 < 60 →
        a.departure_count.2 ≤ a.max_dep_per_hour) ∧
      (now - a.arrival_count.1 < 60 →
        a.arrival_count.2 ≤ a.max_arr_per_hour)) ∧
    (∀ (a : Airport) (time : Int) (f : Flight) (cap : Nat)
      (a' : Airport) (f' : Flight), 60 ≤ time - a.departure_count.1 →
      a.mark_departure time f cap = some (a', f') →
      a'.departure_count = (time, 1)) ∧
    (∀ (a : Airport) (time : Int) (f : Flight) (a' : Airport),
      60 ≤ time - a.arrival_count.1 →
      a.mark_arrival time f = some a' →
      a'.arrival_count = (time, 1)) := by
  refine ⟨?_, ?_, ?_⟩
  · intro a0 now0 a now h hdep harr hinv
    exact (airport_reach_aux (a0, now0) (a, now) h hdep harr hinv).2.2
  · intro a time f cap a' f' hstale hmark
    have h4 := (mark_departure_counters a time f cap a' f' hmark).2.2.2
    rwa [if_pos (by omega)] at h4
  · intro a time f a' hstale hmark
    have h4 := (mark_arrival_counters a time f a' hmark).2.2.2
    rwa [if_pos (by omega)] at h4

/-- Zero-cap airport at a stale counter, for the C5 counterexample. -/
def c5a0 : Airport :=
  { code := 0, fleet := ["T1"], crew := [], passengers := [],
    max_dep_per_hour := 0, max_arr_per_hour := 0,
    departure_count := (0, 0), arrival_count := (0, 0) }

/-- The state `c5a0` reaches after one departure marked at time 60. -/
def c5a1 : Airport :=
  { code := 0, fleet := [], crew := [], passengers := [],
    max_dep_per_hour := 0, max_arr_per_hour := 0,
    departure_count := (60, 1), arrival_count := (0, 0) }

/-- A flight used in the C5 counterexample. -/
def c5f : Flight :=
  { id := 0, flight_number := "", aircraft_tail := some "T1", crew := [],
    passengers := [], origin := 0, dest := 1, cancelled := false,
    depart_time := none, arrive_time := none, dep_delay := 0,
    accum_delay := none, sched_depart := 0, sched_arrive := 60 }

/-- C5 counterexample: with `max_dep_per_hour = 0` and a stale window, the
gate `depart_time(60) = 60` passes (stale counters always return `time`),
`mark_departure` resets the counter to `(60, 1)`, and the count 1 exceeds
the cap 0 inside the open window.  So the claim fails for cap-0 airports. -/
theorem airport_rate_caps_ctex :
    Relation.ReflTransGen AirportStep (c5a0, 0) (c5a1, 60) ∧
    60 - c5a1.departure_count.1 < 60 ∧
    c5a1.max_dep_per_hour < c5a1.departure_count.2 := by
  refine ⟨?_, by decide, by decide⟩
  have h1 : AirportStep (c5a0, 0) (c5a0, 60) :=
    AirportStep.advance c5a0 0 60 (by omega)
  have h2 : AirportStep (c5a0, 60) (c5a1, 60) :=
    AirportStep.markDep c5a0 60 c5f 100 c5a1 c5f (by decide) (by decide)
  exact Relation.ReflTransGen.tail (Relation.ReflTransGen.single h1) h2

/-- Witness for C5 at a concrete scenario-style initial airport. -/
theorem airport_rate_caps_witness :
    ((0 : Int) - (Airport.mk 0 [] [] [] 1 1 (0, 0) (0, 0)).departure_count.1 < 60 →
      (Airport.mk 0 [] [] [] 1 1 (0, 0) (0, 0)).departure_count.2 ≤
        (Airport.mk 0 [] [] [] 1 1 (0, 0) (0, 0)).max_dep_per_hour) := by
  have h := (airport_rate_caps_bounded.1 (Airport.mk 0 [] [] [] 1 1 (0, 0) (0, 0))
    0 (Airport.mk 0 [] [] [] 1 1 (0, 0) (0, 0)) 0 Relation.ReflTransGen.refl
    (by decide) (by decide) (by constructor <;> intro _ <;> decide)).1
  exact h

/-! ## Crew duty accounting (src/crew.rs) -/

/-- `Location` (src/aircraft.rs lines 97-102). -/
inductive Location where
  | Ground : AirportCode → Int → Location
  | InFlight : FlightId → Location
deriving Repr, DecidableEq

/-- `Crew` (src/crew.rs lines 10-17). -/
structure Crew where
  id : CrewId
  location : Location
  duty : List FlightId
  next_claimed : Option FlightId
deriving Repr, DecidableEq

/-- `flt.arrive_time.unwrap_or(flt.act_arrive_time())` as Rust evaluates it:
`unwrap_or` computes its argument eagerly, so `act_arrive_time` panics
(`none`) whenever the flight has not departed, even when `arrive_time` is
`Some`. -/
def arriveOrEst (f : Flight) : Option Int :=
  f.act_arrive_time.map (fun est => f.arrive_time.getD est)

/-- `duration_in_range` (src/crew.rs lines 130-133):
`min(arrive_or_est, end) - max(depart_time.unwrap(), start)`. -/
def durationInRange (f : Flight) (s e : Int) : Option Int :=
  match f.depart_time, arriveOrEst f with
  | some dep, some ae => some (min ae e - max dep s)
  | _, _ => none

/-- The `take_while(arrive_or_est ≥ start).map(duration_in_range).sum()`
part of `Crew::duty_during`, over the reversed duty log resolved through
`lookup` (= `model.flight_read`).  `take_while` evaluates its predicate on
the first failing element too, so that element's panic is also modelled. -/
def dutyTake (lookup : FlightId → Flight) (s e : Int) :
    List FlightId → Option Int
  | [] => some 0
  | fid :: rest =>
    match arriveOrEst (lookup fid) with
    | none => none
    | some ae =>
      if ae ≥ s then
        match durationInRange (lookup fid) s e, dutyTake lookup s e rest with
        | some d, some tl => some (d + tl)
        | _, _ => none
      else some 0

/-- The `skip_while(depart_time.unwrap() ≥ end)` part of `Crew::duty_during`;
the element that ends the skip is handed to the take phase. -/
def dutySkip (lookup : FlightId → Flight) (s e : Int) :
    List FlightId → Option Int
  | [] => some 0
  | fid :: rest =>
    match (lookup fid).depart_time with
    | none => none
    | some dep =>
      if dep ≥ e then dutySkip lookup s e rest
      else dutyTake lookup s e (fid :: rest)

/-- `Crew::duty_during` (src/crew.rs lines 70-81): the duty log is walked in
reverse (`iter().rev()`). -/
def Crew.duty_during (c : Crew) (s e : Int) (lookup : FlightId → Flight) :
    Option Int :=
  dutySkip lookup s e c.duty.reverse

/-- `Crew::remaining_after_time` (src/crew.rs lines 33-49) with
`DUTY_HOURS = 10` hours = 600 minutes: `d` is the flight's scheduled
duration, the window is `[now - 24h + d, now]`, and the result is
`600 - (duty_during(window) + d)`. -/
def Crew.remaining_after_time (c : Crew) (f : Flight) (now : Int)
    (lookup : FlightId → Flight) : Option Int :=
  (c.duty_during (now - 1440 + (f.sched_arrive - f.sched_depart)) now lookup).map
    (fun dutyDur => 600 - (dutyDur + (f.sched_arrive - f.sched_depart)))

/-- Crew and flight for the C8 counterexample: empty duty log, and a flight
whose scheduled duration is exactly 24h, making the duty window
`[now - 24h + d, now] = [now, now]` zero-length. -/
def c8crew : Crew := { id := 0, location := .Ground 0 0, duty := [], next_claimed := none }

/-- A 24-hour flight (sched 0 to 1440), giving a zero-length duty window. -/
def c8flight : Flight :=
  { id := 3, flight_number := "", aircraft_tail := none, crew := [0],
    passengers := [], origin := 0, dest := 1, cancelled := false,
    depart_time := none, arrive_time := none, dep_delay := 0,
    accum_delay := none, sched_depart := 0, sched_arrive := 1440 }

/-- C8 counterexample: for a zero-length duty window (flight duration
`d = 24h`, so `[now - 24h + d, now] = [now, now]`) the code returns
`DUTY_HOURS - (0 + d) = 600 - 1440 = -840` minutes (that is,
`DUTY_HOURS - 24h = -14h`), not `DUTY_HOURS`. -/
theorem crew_zero_window_ctex :
    c8crew.remaining_after_time c8flight 0 (fun _ => c8flight) = some (-840) ∧
    c8crew.remaining_after_time c8flight 0 (fun _ => c8flight) ≠ some 600 := by
  constructor <;> decide

theorem dutyTake_zero_window (lookup : FlightId → Flight) (s : Int) :
    ∀ l : List FlightId,
    (∀ fid ∈ l, ∃ dep, (lookup fid).depart_time = some dep ∧ dep ≤ s) →
    dutyTake lookup s s l = some 0 := by
  intro l
  induction l with
  | nil => intro _; rfl
  | cons fid rest ih =>
    intro h
    obtain ⟨dep, hdep, hle⟩ := h fid (List.mem_cons_self _ _)
    have hae : arriveOrEst (lookup fid) =
        some (((lookup fid).arrive_time).getD
          ((lookup fid).est_arrive_time dep)) := by
      unfold arriveOrEst Flight.act_arrive_time
      rw [hdep]
      rfl
    unfold dutyTake
    simp only [hae]
    split_ifs with hge
    · have h1 : min (((lookup fid).arrive_time).getD
          ((lookup fid).est_arrive_time dep)) s = s := min_eq_right hge
      have h2 : max dep s = s := max_eq_right hle
      have hdir : durationInRange (lookup fid) s s = some 0 := by
        unfold durationInRange
        rw [hdep, hae]
        show some (min (((lookup fid).arrive_time).getD
            ((lookup fid).est_arrive_time dep)) s - max dep s) = some 0
        rw [h1, h2]
        simp
      rw [hdir, ih (fun x hx => h x (List.mem_cons_of_mem _ hx))]
      rfl
    · rfl

theorem dutySkip_zero_window (lookup : FlightId → Flight) (s : Int) :
    ∀ l : List FlightId,
    (∀ fid ∈ l, ∃ dep, (lookup fid).depart_time = some dep ∧ dep ≤ s) →
    dutySkip lookup s s l = some 0 := by
  intro l
  induction l with
  | nil => intro _; rfl
  | cons fid rest ih =>
    intro h
    obtain ⟨dep, hdep, hle⟩ := h fid (List.mem_cons_self _ _)
    unfold dutySkip
    simp only [hdep]
    split_ifs with hge
    · exact ih (fun x hx => h x (List.mem_cons_of_mem _ hx))
    · exact dutyTake_zero_window lookup s (fid :: rest) h

/-- C8 (amended): for a zero-length duty window — the flight's scheduled
duration is exactly 24h — and a duty log of flights that departed by `now`,
the duty time logged inside the window is 0, so `remaining_after_time`
returns `DUTY_HOURS - d = 600 - 1440 = -840` minutes (`-14` hours), not
`DUTY_HOURS`. -/
theorem crew_zero_window_remaining (c : Crew) (f : Flight) (now : Int)
    (lookup : FlightId → Flight)
    (hwin : now - 1440 + (f.sched_arrive - f.sched_depart) = now)
    (hdep : ∀ fid ∈ c.duty, ∃ dep,
      (lookup fid).depart_time = some dep ∧ dep ≤ now) :
    c.remaining_after_time f now lookup = some (600 - 1440) := by
  have hdur : f.sched_arrive - f.sched_depart = 1440 := by omega
  unfold Crew.remaining_after_time Crew.duty_during
  rw [hwin]
  rw [dutySkip_zero_window lookup now c.duty.reverse
    (fun x hx => hdep x (List.mem_reverse.mp hx))]
  rw [hdur]
  simp

/-- Witness for C8's amended theorem: a crew with one logged past flight and
a 24-hour next flight. -/
theorem crew_zero_window_witness :
    (Crew.mk 0 (.Ground 0 0) [3] none).remaining_after_time c8flight 0
      (fun _ => Flight.mk 3 "" none [0] [] 0 1 false (some (-100)) (some (-40))
        0 none (-100) (-40)) = some (600 - 1440) := by
  exact crew_zero_window_remaining (Crew.mk 0 (.Ground 0 0) [3] none) c8flight 0
    (fun _ => Flight.mk 3 "" none [0] [] 0 1 false (some (-100)) (some (-40))
      0 none (-100) (-40))
    (by decide)
    (by intro fid hf; exact ⟨-100, rfl, by decide⟩)

/-! ## C2: dispatcher event loop clock monotonicity -/

/-- `UpdateType` (src/dispatcher.rs lines 24-27). -/
inductive UpdateType where
  | CheckDepart | CheckArrive
deriving Repr, DecidableEq

/-- `DispatcherUpdate` (src/dispatcher.rs lines 29-33); the field named
`_type` in the source is `utype` here. -/
structure DispatcherUpdate where
  time : Int
  flight : FlightId
  utype : UpdateType
deriving Repr, DecidableEq

/-- `Ord for DispatcherUpdate` (src/dispatcher.rs lines 47-51):
`other.time.cmp(&self.time)` — the comparison is reversed so that the
`BinaryHeap` (a max-heap) pops an update with the least time. -/
def DispatcherUpdate.cmp (a b : DispatcherUpdate) : Ordering :=
  cmpInt b.time a.time

/-- The `run_model` loop state (src/dispatcher.rs lines 130-150): the
pending times in the `update_queue` and the model clock `_now`. -/
structure LoopState where
  queue : Multiset Int
  clock : Int

/-- One iteration of the `while let Some(update) = self.update_queue.pop()`
loop (src/dispatcher.rs lines 136-144): pop an update of minimal time `t`
(what the reversed-`Ord` max-heap yields; ties arbitrary), set the clock to
`t`, and run `update_flight`, which pushes some batch of updates — per its
push sites, each at a time `≥ model.now() = t`. -/
inductive LoopStep : LoopState → Int → LoopState → Prop where
  | pop (q : Multiset Int) (c t : Int) (pushed : Multiset Int) :
      t ∈ q → (∀ u ∈ q, t ≤ u) → (∀ u ∈ pushed, t ≤ u) →
      LoopStep ⟨q, c⟩ t ⟨q.erase t + pushed, t⟩

/-- A (prefix of a) run of the loop, recording the dispatched event times in
order. -/
inductive LoopRun : LoopState → List Int → Prop where
  | nil (s : LoopState) : LoopRun s []
  | cons (s : LoopState) (t : Int) (s' : LoopState) (ts : List Int) :
      LoopStep s t s' → LoopRun s' ts → LoopRun s (t :: ts)

theorem loopRun_mono_aux (s : LoopState) (ts : List Int)
    (h : LoopRun s ts) :
    List.Chain' (· ≤ ·) ts ∧
    (∀ b : Int, (∀ u ∈ s.queue, b ≤ u) → ∀ x ∈ ts.head?, b ≤ x) := by
  induction h with
  | nil s => exact ⟨List.chain'_nil, fun b _ x hx => by simp at hx⟩
  | cons s t s' ts hstep hrun ih =>
    obtain ⟨ihchain, ihhead⟩ := ih
    cases hstep with
    | pop q c t pushed hmem hmin hpush =>
      have hnext : ∀ u ∈ (q.erase t + pushed), t ≤ u := by
        intro u hu
        rcases Multiset.mem_add.mp hu with h1 | h2
        · exact hmin u (Multiset.mem_of_mem_erase h1)
        · exact hpush u h2
      refine ⟨List.chain'_cons'.mpr ⟨ihhead t hnext, ihchain⟩, ?_⟩
      intro b hb x hx
      simp only [List.head?_cons, Option.mem_def, Option.some.injEq] at hx
      exact hx ▸ hb t hmem

/-- C2: along every run of the dispatcher loop the dispatched event times
are nondecreasing (`t ≤ t'` for consecutive pops), the model clock is set to
each popped event's time — hence never decreases — and the reversed
`Ord for DispatcherUpdate` makes the max-heap's top an earliest-time update
(`cmp a b = gt` exactly when `a.time < b.time`).  The monotonicity rests on
the premise, encoded in `LoopStep`, that every update enqueued by the gates
carries a time `≥` the clock at the time of the push. -/
theorem dispatcher_clock_monotone :
    (∀ (s : LoopState) (ts : List Int), LoopRun s ts →
      List.Chain' (· ≤ ·) ts) ∧
    (∀ (s : LoopState) (t : Int) (s' : LoopState), LoopStep s t s' →
      s'.clock = t) ∧
    (∀ a b : DispatcherUpdate, a.cmp b = .gt ↔ a.time < b.time) := by
  refine ⟨?_, ?_, ?_⟩
  · intro s ts h
    exact (loopRun_mono_aux s ts h).1
  · intro s t s' hstep
    cases hstep
    rfl
  · intro a b
    unfold DispatcherUpdate.cmp cmpInt
    split_ifs with h1 h2 <;> simp <;> omega

/-- Witness for C2: a concrete two-event run with times 3 then 5. -/
theorem dispatcher_clock_monotone_witness :
    List.Chain' (· ≤ ·) ([3, 5] : List Int) := by
  have hstep1 : LoopStep ⟨{3, 5}, 0⟩ 3 ⟨({3, 5} : Multiset Int).erase 3 + 0, 3⟩ :=
    LoopStep.pop {3, 5} 0 3 0 (by decide) (by decide) (by simp)
  have hstep2 : LoopStep ⟨({3, 5} : Multiset Int).erase 3 + 0, 3⟩ 5
      ⟨(({3, 5} : Multiset Int).erase 3 + 0).erase 5 + 0, 5⟩ :=
    LoopStep.pop _ 3 5 0 (by decide) (by decide) (by simp)
  exact dispatcher_clock_monotone.1 _ _
    (LoopRun.cons _ 3 _ _ hstep1 (LoopRun.cons _ 5 _ _ hstep2 (LoopRun.nil _)))

/-! ## C3: the max-delay bound on departures -/

/-- Result of `Dispatcher::delay_departure` (src/dispatcher.rs lines
680-708). -/
inductive DelayDepartureResult where
  | cancelled : CancelReason → DelayDepartureResult
  | enqueued : Int → List (Int × DelayReason) → DelayDepartureResult
deriving Repr, DecidableEq

/-- `Dispatcher::delay_departure` (src/dispatcher.rs lines 680-708):
`duration` is the sum of the reason components; if `now + duration` exceeds
`sched_depart + max_delay` the flight is cancelled with `DelayTimedOut`;
otherwise one `FlightDepartureDelayed` is published per component (carried
in the result), `dep_delay` grows by `duration`, and `CheckDepart` is
enqueued at `now + duration`. -/
def delay_departure (now sched_depart max_delay : Int)
    (reason : List (Int × DelayReason)) : DelayDepartureResult :=
  if now + (reason.map Prod.fst).sum > sched_depart + max_delay then
    .cancelled .DelayTimedOut
  else .enqueued (now + (reason.map Prod.fst).sum) reason

/-- The times at which the `CheckDepart` handler, processing an update for
this flight at clock `now`, re-enqueues a `CheckDepart` for it: the time
gate re-enqueues at `sched_depart` (src/dispatcher.rs lines 169-177), the
reassignment paths re-check at `now` (lines 242-246, 430-434, 487-493), and
every other path delays through `delay_departure` (lines 251-258, 262-271,
343-350, 362-370, 500-510, 520-525, 576-581). -/
inductive CheckDepartPush (sched_depart max_delay now : Int) : Int → Prop where
  | timeGate : now < sched_depart →
      CheckDepartPush sched_depart max_delay now sched_depart
  | recheck : CheckDepartPush sched_depart max_delay now now
  | delayed (reason : List (Int × DelayReason)) (t : Int) :
      delay_departure now sched_depart max_delay reason = .enqueued t reason →
      CheckDepartPush sched_depart max_delay now t

/-- The `CheckDepart` event times reachable for one flight: seeded at
`sched_depart` by `init_flight_updates` (src/dispatcher.rs lines 114-123),
then closed under the handler's push sites. -/
inductive ReachableCheckDepart (sched_depart max_delay : Int) : Int → Prop where
  | init : ReachableCheckDepart sched_depart max_delay sched_depart
  | step (t u : Int) : ReachableCheckDepart sched_depart max_delay t →
      CheckDepartPush sched_depart max_delay t u →
      ReachableCheckDepart sched_depart max_delay u

/-- C3: with a nonnegative `max_delay`, every `CheckDepart` event time for a
flight — and hence the clock value `now` at which `Model::depart_flight`
runs and stamps `depart_time = now` — satisfies
`t ≤ sched_depart + max_delay`: the only path that moves a `CheckDepart`
strictly past `now` beyond the schedule is `delay_departure`, and it cancels
with `DelayTimedOut` instead whenever `now + duration` would exceed
`sched_depart + max_delay`. -/
theorem departure_bounded_by_max_delay :
    (∀ (sched_depart max_delay t : Int), 0 ≤ max_delay →
      ReachableCheckDepart sched_depart max_delay t →
      t ≤ sched_depart + max_delay) ∧
    (∀ (f : Flight) (t : Int), (f.takeoff t).depart_time = some t) ∧
    (∀ (now sched_depart max_delay : Int) (reason : List (Int × DelayReason)),
      now + (reason.map Prod.fst).sum > sched_depart + max_delay →
      delay_departure now sched_depart max_delay reason =
        .cancelled .DelayTimedOut) := by
  refine ⟨?_, ?_, ?_⟩
  · intro sched_depart max_delay t hmd h
    induction h with
    | init => omega
    | step t u _ hpush ih =>
      cases hpush with
      | timeGate hlt => omega
      | recheck => exact ih
      | delayed reason u heq =>
        unfold delay_departure at heq
        split_ifs at heq with hc
        simp only [DelayDepartureResult.enqueued.injEq, and_true] at heq
        omega
  · intro f t
    rfl
  · intro now sched_depart max_delay reason h
    unfold delay_departure
    rw [if_pos h]

/-- Witness for C3 at concrete numbers. -/
theorem departure_bounded_witness :
    (0 : Int) ≤ 0 + 180 ∧
    delay_departure 0 0 180 [(181, DelayReason.CrewShortage [])] =
      .cancelled .DelayTimedOut := by
  constructor
  · exact departure_bounded_by_max_delay.1 0 180 0 (by omega)
      ReachableCheckDepart.init
  · exact departure_bounded_by_max_delay.2.2 0 0 180
      [(181, DelayReason.CrewShortage [])] (by simp)

/-! ## C6: a cancelled flight never departs or arrives -/

/-- `Crew::unclaim` (src/crew.rs lines 123-127). -/
def Crew.unclaim (c : Crew) (flight : FlightId) : Crew :=
  if c.next_claimed = some flight then { c with next_claimed := none } else c

/-- The effect of `Model::cancel_flight` on the flight record (src/model.rs
lines 121-134): set `cancelled = true` (each assigned crew and the aircraft
are also unclaimed). -/
def cancel_flight (f : Flight) : Flight := { f with cancelled := true }

/-- The per-flight stage of the dispatcher (doc comment of `update_flight`,
src/dispatcher.rs lines 151-163), with the flight's single pending update
implicit in the stage: a `Scheduled` flight has exactly one pending
`CheckDepart`, an `Enroute` flight exactly one pending `CheckArrive`, and a
`Cancelled` or `Arrived` flight none. -/
inductive FlightPhase where
  | Scheduled | Enroute | Arrived | Cancelled
deriving Repr, DecidableEq

/-- The per-flight transitions of `update_flight` (src/dispatcher.rs lines
164-677).  Each arm of the `CheckDepart` handler either re-enqueues this
flight (stays `Scheduled`), cancels it and returns without enqueuing
(lines 436-446, 559-563, and `delay_departure`'s cancel branch, lines
690-694), or departs it and enqueues `CheckArrive` (lines 584-591); the
`CheckArrive` handler re-enqueues (lines 593-673) or arrives (line 675).
Cancellations target only `update.flight` itself, so no other flight's
handler can extend this flight's chain, and no constructor leaves
`Cancelled`. -/
inductive FlightStep : FlightPhase → FlightPhase → Prop where
  | requeueDepart : FlightStep .Scheduled .Scheduled
  | cancelAtDepart : FlightStep .Scheduled .Cancelled
  | depart : FlightStep .Scheduled .Enroute
  | requeueArrive : FlightStep .Enroute .Enroute
  | arrive : FlightStep .Enroute .Arrived

/-- C6: `cancel_flight` marks the flight cancelled, and from `Cancelled` no
sequence of dispatcher steps reaches any other phase: every cancellation
path returns without enqueuing a further update for the flight, so a
cancelled flight never departs (`Enroute`) and never arrives (`Arrived`). -/
theorem cancelled_flight_terminal :
    (∀ f : Flight, (cancel_flight f).cancelled = true) ∧
    (∀ p : FlightPhase,
      Relation.ReflTransGen FlightStep .Cancelled p → p = .Cancelled) ∧
    (∀ p : FlightPhase, Relation.ReflTransGen FlightStep .Cancelled p →
      p ≠ .Enroute ∧ p ≠ .Arrived) := by
  have hterm : ∀ p : FlightPhase,
      Relation.ReflTransGen FlightStep .Cancelled p → p = .Cancelled := by
    intro p h
    induction h with
    | refl => rfl
    | tail hchain hstep ih =>
      subst ih
      cases hstep
  refine ⟨fun f => rfl, hterm, ?_⟩
  intro p h
  rw [hterm p h]
  exact ⟨by decide, by decide⟩

/-- Witness for C6 at the trivial reflexive chain. -/
theorem cancelled_flight_terminal_witness :
    FlightPhase.Cancelled = FlightPhase.Cancelled ∧
    (cancel_flight c5f).cancelled = true := by
  constructor
  · exact cancelled_flight_terminal.2.1 .Cancelled Relation.ReflTransGen.refl
  · exact cancelled_flight_terminal.1 c5f

/-! ## C4: the reserve-earliest walk (src/model.rs lines 136-210) -/

/-- One pass of `reserve_earliest`'s `for` loop over the `n` disruptions
(src/model.rs lines 190-207), threading the shared disruption state `σ`:
`request s i t` is `disruptions[i].request_depart/arrive` at time `t` behind
its write lock and `void s i t` the matching void.  Scan index `i` with
`remaining = n - i` indices left, skipping `already_slotted` and pushing
each finished index onto `cleared`; at the first timed clearance
`later > t`, void every cleared index at `t` (in order) and report
`(i, later)`; if the scan finishes, every disruption cleared at `t`. -/
def walkOnce {σ : Type} (request : σ → Nat → Int → Clearance × σ)
    (void : σ → Nat → Int → σ) (already : Option Nat) (t : Int) :
    Nat → Nat → σ → List Nat → (Option (Nat × Int)) × σ
  | 0, _, s, _ => (none, s)
  | remaining + 1, i, s, cleared =>
    if already = some i then
      walkOnce request void already t remaining (i + 1) s (cleared ++ [i])
    else
      match request s i t with
      | (c, s') =>
        match c.time with
        | some later =>
          if later > t then
            (some (i, later), cleared.foldl (fun st j => void st j t) s')
          else
            walkOnce request void already t remaining (i + 1) s' (cleared ++ [i])
        | none =>
          walkOnce request void already t remaining (i + 1) s' (cleared ++ [i])

theorem walkOnce_some_gt {σ : Type} (request : σ → Nat → Int → Clearance × σ)
    (void : σ → Nat → Int → σ) (already : Option Nat) (t : Int) :
    ∀ (remaining i : Nat) (s : σ) (cleared : List Nat)
      (j : Nat) (later : Int) (s' : σ),
    walkOnce request void already t remaining i s cleared = (some (j, later), s') →
    t < later := by
  intro remaining
  induction remaining with
  | zero =>
    intro i s cleared j later s' h
    simp [walkOnce] at h
  | succ rem ih =>
    intro i s cleared j later s' h
    unfold walkOnce at h
    split_ifs at h with halready
    · exact ih (i + 1) s (cleared ++ [i]) j later s' h
    · rcases hr : request s i t with ⟨c, s2⟩
      simp only [hr] at h
      cases hc : c.time with
      | some later2 =>
        simp only [hc] at h
        split_ifs at h with hgt
        · simp only [Prod.mk.injEq, Option.some.injEq] at h
          obtain ⟨⟨h1, h2⟩, h3⟩ := h
          omega
        · exact ih (i + 1) s2 (cleared ++ [i]) j later s' h
      | none =>
        simp only [hc] at h
        exact ih (i + 1) s2 (cleared ++ [i]) j later s' h

/-- `Model::reserve_earliest` (src/model.rs lines 187-210): walk all `n`
disruptions from `starting`; at the first timed clearance `later > starting`
the cleared prefix is voided at `starting`, the walk gives up (`none`) when
`later ≥ now + max_delay`, and otherwise records `(i, later - starting)` as
a reason and restarts from `later` with disruption `i` marked
already-slotted.  The recursion terminates because each restart strictly
advances the time (`walkOnce_some_gt`) while staying below
`now + max_delay`. -/
def reserveEarliest {σ : Type} (request : σ → Nat → Int → Clearance × σ)
    (void : σ → Nat → Int → σ) (n : Nat) (now max_delay : Int) :
    σ → List (Nat × Int) → Int → Option Nat →
    (Option (Int × List (Nat × Int))) × σ
  | s, reasons, starting, already =>
    match h : walkOnce request void already starting n 0 s [] with
    | (none, s') => (some (starting, reasons), s')
    | (some (i, later), s') =>
      if h2 : later ≥ now + max_delay then (none, s')
      else reserveEarliest request void n now max_delay s'
        (reasons ++ [(i, later - starting)]) later (some i)
  termination_by s reasons starting already => (now + max_delay - starting).toNat
  decreasing_by
    have hgt := walkOnce_some_gt request void already starting n 0 s [] i later s' h
    omega

theorem reserveEarliest_unfold {σ : Type}
    (request : σ → Nat → Int → Clearance × σ) (void : σ → Nat → Int → σ)
    (n : Nat) (now max_delay : Int) (s : σ) (reasons : List (Nat × Int))
    (starting : Int) (already : Option Nat) :
    reserveEarliest request void n now max_delay s reasons starting already =
      match walkOnce request void already starting n 0 s [] with
      | (none, s') => (some (starting, reasons), s')
      | (some (i, later), s') =>
        if later ≥ now + max_delay then (none, s')
        else reserveEarliest request void n now max_delay s'
          (reasons ++ [(i, later - starting)]) later (some i) := by
  conv_lhs => rw [reserveEarliest]
  rcases hw : walkOnce request void already starting n 0 s [] with ⟨fst, s'⟩
  cases fst with
  | none => rfl
  | some p => simp only [dite_eq_ite]

/-- The walk configurations from which `reserve_earliest` yields no
solution: iterating restarts, some restart's timed clearance lands at or
beyond `now + max_delay` (the guard at src/model.rs lines 197-200). -/
inductive GuardHit {σ : Type} (request : σ → Nat → Int → Clearance × σ)
    (void : σ → Nat → Int → σ) (n : Nat) (now max_delay : Int) :
    σ → Int → Option Nat → Prop where
  | hit (s : σ) (t : Int) (already : Option Nat) (i : Nat) (later : Int)
      (s' : σ) :
      walkOnce request void already t n 0 s [] = (some (i, later), s') →
      later ≥ now + max_delay →
      GuardHit request void n now max_delay s t already
  | step (s : σ) (t : Int) (already : Option Nat) (i : Nat) (later : Int)
      (s' : σ) :
      walkOnce request void already t n 0 s [] = (some (i, later), s') →
      later < now + max_delay →
      GuardHit request void n now max_delay s' later (some i) →
      GuardHit request void n now max_delay s t already

theorem reserveEarliest_spec {σ : Type}
    (request : σ → Nat → Int → Clearance × σ) (void : σ → Nat → Int → σ)
    (n : Nat) (now max_delay : Int) :
    ∀ (k : Nat) (s : σ) (reasons : List (Nat × Int)) (t : Int)
      (already : Option Nat),
    (now + max_delay - t).toNat ≤ k →
    (((reserveEarliest request void n now max_delay s reasons t already).1 = none)
      ↔ GuardHit request void n now max_delay s t already) ∧
    (∀ r rs s2, reserveEarliest request void n now max_delay s reasons t already
      = (some (r, rs), s2) → t ≤ r) := by
  intro k
  induction k with
  | zero =>
    intro s reasons t already hk
    rw [reserveEarliest_unfold]
    rcases hw : walkOnce request void already t n 0 s [] with ⟨fst, s'⟩
    cases fst with
    | none =>
      constructor
      · constructor
        · intro hnone
          simp at hnone
        · intro hg
          cases hg with
          | hit _ _ _ i2 later2 s2 hw2 hge =>
            rw [hw] at hw2
            simp at hw2
          | step _ _ _ i2 later2 s2 hw2 hlt2 hg2 =>
            rw [hw] at hw2
            simp at hw2
      · intro r rs s2 heq
        simp only [Prod.mk.injEq, Option.some.injEq] at heq
        obtain ⟨⟨h1, h2⟩, h3⟩ := heq
        omega
    | some p =>
      obtain ⟨i, later⟩ := p
      have hgt : t < later := walkOnce_some_gt request void already t n 0 s [] i later s' hw
      have hge : later ≥ now + max_delay := by omega
      dsimp only
      rw [if_pos hge]
      constructor
      · constructor
        · intro _
          exact GuardHit.hit s t already i later s' hw hge
        · intro _
          rfl
      · intro r rs s2 heq
        simp at heq
  | succ k ih =>
    intro s reasons t already hk
    rw [reserveEarliest_unfold]
    rcases hw : walkOnce request void already t n 0 s [] with ⟨fst, s'⟩
    cases fst with
    | none =>
      constructor
      · constructor
        · intro hnone
          simp at hnone
        · intro hg
          cases hg with
          | hit _ _ _ i2 later2 s2 hw2 hge =>
            rw [hw] at hw2
            simp at hw2
          | step _ _ _ i2 later2 s2 hw2 hlt2 hg2 =>
            rw [hw] at hw2
            simp at hw2
      · intro r rs s2 heq
        simp only [Prod.mk.injEq, Option.some.injEq] at heq
        obtain ⟨⟨h1, h2⟩, h3⟩ := heq
        omega
    | some p =>
      obtain ⟨i, later⟩ := p
      have hgt : t < later := walkOnce_some_gt request void already t n 0 s [] i later s' hw
      dsimp only
      by_cases hge : later ≥ now + max_delay
      · rw [if_pos hge]
        constructor
        · constructor
          · intro _
            exact GuardHit.hit s t already i later s' hw hge
          · intro _
            rfl
        · intro r rs s2 heq
          simp at heq
      · rw [if_neg hge]
        push_neg at hge
        have hk2 : (now + max_delay - later).toNat ≤ k := by omega
        obtain ⟨ihiff, ihle⟩ := ih s' (reasons ++ [(i, later - t)]) later (some i) hk2
        constructor
        · rw [ihiff]
          constructor
          · intro hg
            exact GuardHit.step s t already i later s' hw hge hg
          · intro hg
            cases hg with
            | hit _ _ _ i2 later2 s2 hw2 hge2 =>
              rw [hw] at hw2
              simp only [Prod.mk.injEq, Option.some.injEq] at hw2
              obtain ⟨⟨e1, e2⟩, e3⟩ := hw2
              omega
            | step _ _ _ i2 later2 s2 hw2 hlt2 hg2 =>
              rw [hw] at hw2
              simp only [Prod.mk.injEq, Option.some.injEq] at hw2
              obtain ⟨⟨e1, e2⟩, e3⟩ := hw2
              subst e1
              subst e2
              subst e3
              exact hg2
        · intro r rs s2 heq
          have := ihle r rs s2 heq
          omega

/-- The outcome of the `CheckDepart` disruption gate. -/
inductive DisruptionGateOutcome where
  | cancel : CancelReason → DisruptionGateOutcome
  | delay : List (Nat × Int) → DisruptionGateOutcome
  | pass : DisruptionGateOutcome
deriving Repr, DecidableEq

/-- The `CheckDepart` disruption gate (src/dispatcher.rs lines 537-563):
when `Model::request_departure` comes back `None` the dispatcher cancels the
flight with `DelayTimedOut`; a timed clearance later than `now` delays the
flight with the reason breakdown; otherwise the gate passes. -/
def checkDepartDisruptionGate (now : Int)
    (res : Option (Clearance × List (Nat × Int))) : DisruptionGateOutcome :=
  match res with
  | none => .cancel .DelayTimedOut
  | some (c, reasons) =>
    match c.time with
    | some later => if later > now then .delay reasons else .pass
    | none => .pass

/-- `Model::request_departure` (src/model.rs lines 136-159) over the walk:
run `reserve_earliest` from `now` with no reasons and nothing slotted;
`Cleared` when the solved time is `≤ now`, else `EDCT` with the breakdown;
`none` when the walk has no solution. -/
def requestDeparture {σ : Type} (request : σ → Nat → Int → Clearance × σ)
    (void : σ → Nat → Int → σ) (n : Nat) (now max_delay : Int) (s : σ) :
    (Option (Clearance × List (Nat × Int))) × σ :=
  match reserveEarliest request void n now max_delay s [] now none with
  | (some (earliest, rs), s') =>
    if earliest ≤ now then (some (.Cleared, []), s')
    else (some (.EDCT earliest, rs), s')
  | (none, s') => (none, s')

/-- C4: the reserve-earliest walk returns no solution exactly when some
restart produces a timed clearance `≥ now + max_delay` (`GuardHit`); on any
other input over the finitely many disruptions it terminates (the Lean
recursion is total) with a solved time no earlier than the walk's start,
because each restart strictly advances the time and the max-delay guard
bounds the walk; `Model::request_departure` surfaces the no-solution case as
`None`, and the dispatcher's disruption gate turns `None` into a
`DelayTimedOut` cancellation. -/
theorem reserve_earliest_no_solution_iff :
    (∀ {σ : Type} (request : σ → Nat → Int → Clearance × σ)
      (void : σ → Nat → Int → σ) (n : Nat) (now max_delay : Int) (s : σ)
      (reasons : List (Nat × Int)) (t : Int) (already : Option Nat),
      (((reserveEarliest request void n now max_delay s reasons t already).1
        = none) ↔ GuardHit request void n now max_delay s t already)) ∧
    (∀ {σ : Type} (request : σ → Nat → Int → Clearance × σ)
      (void : σ → Nat → Int → σ) (n : Nat) (now max_delay : Int) (s : σ)
      (reasons : List (Nat × Int)) (t : Int) (already : Option Nat)
      (r : Int) (rs : List (Nat × Int)) (s2 : σ),
      reserveEarliest request void n now max_delay s reasons t already
        = (some (r, rs), s2) → t ≤ r) ∧
    (∀ {σ : Type} (request : σ → Nat → Int → Clearance × σ)
      (void : σ → Nat → Int → σ) (n : Nat) (now max_delay : Int) (s : σ),
      ((requestDeparture request void n now max_delay s).1 = none ↔
        GuardHit request void n now max_delay s now none)) ∧
    (∀ now : Int, checkDepartDisruptionGate now none =
      .cancel .DelayTimedOut) := by
  refine ⟨?_, ?_, ?_, ?_⟩
  · intro σ request void n now max_delay s reasons t already
    exact (reserveEarliest_spec request void n now max_delay
      ((now + max_delay - t).toNat) s reasons t already le_rfl).1
  · intro σ request void n now max_delay s reasons t already r rs s2 heq
    exact (reserveEarliest_spec request void n now max_delay
      ((now + max_delay - t).toNat) s reasons t already le_rfl).2 r rs s2 heq
  · intro σ request void n now max_delay s
    unfold requestDeparture
    rcases hr : reserveEarliest request void n now max_delay s [] now none with
      ⟨fst, s'⟩
    have hiff := (reserveEarliest_spec request void n now max_delay
      ((now + max_delay - now).toNat) s [] now none le_rfl).1
    rw [hr] at hiff
    cases fst with
    | none =>
      simp only
      constructor
      · intro _
        exact hiff.mp rfl
      · intro _
        trivial
    | some p =>
      obtain ⟨earliest, rs⟩ := p
      simp only
      split_ifs with hle
      · constructor
        · intro hx
          simp at hx
        · intro hg
          have := hiff.mpr hg
          simp at this
      · constructor
        · intro hx
          simp at hx
        · intro hg
          have := hiff.mpr hg
          simp at this
  · intro now
    rfl

/-- Witness for C4: a single always-cleared disruption solves immediately at
the walk's start, and the gate cancels on a `None`. -/
theorem reserve_earliest_witness :
    (0 : Int) ≤ 0 ∧
    checkDepartDisruptionGate 5 none = .cancel .DelayTimedOut := by
  constructor
  · have hw : walkOnce (fun (s : Unit) (_ : Nat) (_ : Int) => (Clearance.Cleared, s))
        (fun s _ _ => s) none 0 1 0 () [] = (none, ()) := rfl
    have hres : reserveEarliest
        (fun (s : Unit) (_ : Nat) (_ : Int) => (Clearance.Cleared, s))
        (fun s _ _ => s) 1 0 100 () [] 0 none = (some (0, []), ()) := by
      rw [reserveEarliest_unfold, hw]
    exact reserve_earliest_no_solution_iff.2.1
      (fun (s : Unit) (_ : Nat) (_ : Int) => (Clearance.Cleared, s))
      (fun s _ _ => s) 1 0 100 () [] 0 none 0 [] () hres
  · exact reserve_earliest_no_solution_iff.2.2.2 5
